import Mathlib

/-!
Verification of the portfolio backend's two core subsystems:

* the token-bucket rate limiter of `src/middleware/auth.go`
  (`RateLimitManager.allow`, `getRemaining`, `cleanup`), and
* the Mongo-backed TTL cache of `src/services/cache_service.go`
  (`Get`, `Set`, `DeletePattern`, `InvalidateGitHubCache`).

Modelling conventions:

* `time.Time` instants and `time.Duration` values are natural numbers in a
  fixed unit (nanoseconds, matching Go's `Duration` representation); the
  claims are stated for monotone sequences of call instants.
* The refill amount `int(elapsed.Seconds() * float64(limit) / window.Seconds())`
  is modelled by the exact truncated quotient `elapsed * limit / window` on
  naturals, which equals the real-number expression exactly since
  `elapsed.Seconds() = elapsed / 1e9` and the `1e9` factors cancel; the
  float64 evaluation is modelled as exact real arithmetic.
* Go's `int` token counter is modelled as `Int` (so `limit - 1` can go
  negative exactly as in Go when the configured limit is non-positive).
* The `map[string]*RateLimiter` and the Mongo `cache` collection (whose
  `key` field identifies a document) are modelled as functions from keys
  to optional entries.
* Goroutine interleavings are not modelled: every operation in the Go code
  runs under the manager's (and bucket's) mutex, so the observable behaviour
  on a single key is a sequential run of the operations, which is what the
  list-of-calls definitions below capture.
-/

namespace Portfolio

/-- Per-key bucket state: Go struct `RateLimiter` of `src/middleware/auth.go`
(`tokens int`, `lastSeen time.Time`); the Go mutex carries no data. -/
structure RateLimiter where
  tokens : Int
  lastSeen : Nat
  deriving DecidableEq

/-- Go struct `RateLimitManager`: a map from client key (IP) to bucket plus the
configured capacity (`limit`) and `window`. -/
structure RateLimitManager where
  limiters : String → Option RateLimiter
  limit : Nat
  window : Nat

/-- Store a bucket under a key (the map writes in `allow`). -/
def RateLimitManager.setLimiter (rlm : RateLimitManager) (ip : String)
    (l : RateLimiter) : RateLimitManager :=
  { rlm with limiters := fun k => if k = ip then some l else rlm.limiters k }

/-- Go `(*RateLimitManager).allow` (src/middleware/auth.go lines 306-346),
with `now` passed explicitly in place of `time.Now()`.  Returns the decision
together with the post-state. -/
def RateLimitManager.allow (rlm : RateLimitManager) (now : Nat) (ip : String) :
    Bool × RateLimitManager :=
  match rlm.limiters ip with
  | none =>
      (true, rlm.setLimiter ip ⟨(rlm.limit : Int) - 1, now⟩)
  | some limiter =>
      let elapsed : Nat := now - limiter.lastSeen
      if elapsed ≥ rlm.window then
        (true, rlm.setLimiter ip ⟨(rlm.limit : Int) - 1, now⟩)
      else
        let tokensToAdd : Nat := elapsed * rlm.limit / rlm.window
        let t1 : Int := limiter.tokens + (tokensToAdd : Int)
        let t2 : Int := if t1 > (rlm.limit : Int) then (rlm.limit : Int) else t1
        if t2 > 0 then
          (true, rlm.setLimiter ip ⟨t2 - 1, now⟩)
        else
          (false, rlm.setLimiter ip ⟨t2, now⟩)

/-- Go `(*RateLimitManager).getRemaining` (lines 348-361): the stored token
count, or the full limit for an unknown key; no refill is performed. -/
def RateLimitManager.getRemaining (rlm : RateLimitManager) (ip : String) : Int :=
  match rlm.limiters ip with
  | none => (rlm.limit : Int)
  | some l => l.tokens

/-- Go `(*RateLimitManager).cleanup` body of one ticker pass (lines 363-381):
delete every bucket idle for more than `2 * window`. -/
def RateLimitManager.cleanup (rlm : RateLimitManager) (now : Nat) :
    RateLimitManager :=
  { rlm with limiters := fun ip =>
      match rlm.limiters ip with
      | some l => if now - l.lastSeen > rlm.window * 2 then none else some l
      | none => none }

/-- Run a sequence of `allow` calls on one key at the given instants,
collecting the results in order. -/
def runAllow (rlm : RateLimitManager) (ip : String) :
    List Nat → List Bool × RateLimitManager
  | [] => ([], rlm)
  | t :: ts =>
      let r := rlm.allow t ip
      let rest := runAllow r.2 ip ts
      (r.1 :: rest.1, rest.2)

/-- A fresh manager with the given capacity and window (the Go `init` sets an
empty `limiters` map). -/
def mkManager (c w : Nat) : RateLimitManager :=
  ⟨fun _ => none, c, w⟩

/-- Number of `true` results in a list of `allow` decisions. -/
def countTrue : List Bool → Nat
  | [] => 0
  | true :: l => countTrue l + 1
  | false :: l => countTrue l

/-! ### Basic facts about the limiter map -/

@[simp] theorem setLimiter_limit (rlm : RateLimitManager) (ip : String)
    (l : RateLimiter) : (rlm.setLimiter ip l).limit = rlm.limit := rfl

@[simp] theorem setLimiter_window (rlm : RateLimitManager) (ip : String)
    (l : RateLimiter) : (rlm.setLimiter ip l).window = rlm.window := rfl

@[simp] theorem setLimiter_limiters_same (rlm : RateLimitManager) (ip : String)
    (l : RateLimiter) : (rlm.setLimiter ip l).limiters ip = some l := by
  simp [RateLimitManager.setLimiter]

theorem setLimiter_limiters_other (rlm : RateLimitManager) (ip k : String)
    (l : RateLimiter) (h : k ≠ ip) :
    (rlm.setLimiter ip l).limiters k = rlm.limiters k := by
  simp [RateLimitManager.setLimiter, h]

/-! ### TTL cache (src/services/cache_service.go) -/

/-- Go struct `models.CacheEntry` as used by the cache service; the `key`
field is the lookup key of the store below. -/
structure CacheEntry (V : Type) where
  value : V
  expiresAt : Nat
  createdAt : Nat
  deriving DecidableEq

/-- The Mongo `cache` collection keyed by the `key` field. -/
def CacheStore (V : Type) := String → Option (CacheEntry V)

/-- Go `(*CacheService).Get` (lines 27-50): the Mongo filter requires
`key = k` and `expires_at $gt now`, so a present-but-expired document is a
miss.  The JSON re-marshalling of the hit value into the caller's target is
modelled as the identity on the stored payload. -/
def CacheStore.get {V : Type} (s : CacheStore V) (key : String) (now : Nat) :
    Option V :=
  match s key with
  | some e => if now < e.expiresAt then some e.value else none
  | none => none

/-- Go `(*CacheService).Set` (lines 53-68): upsert of
`{key, value, expires_at = now + ttl, created_at = now}`. -/
def CacheStore.set {V : Type} (s : CacheStore V) (key : String) (v : V)
    (ttl : Nat) (now : Nat) : CacheStore V :=
  fun k => if k = key then some ⟨v, now + ttl, now⟩ else s k

/-- Whether `p` is an initial segment of `s` (character lists). -/
def leadsList : List Char → List Char → Bool
  | [], _ => true
  | _ :: _, [] => false
  | a :: p, b :: s => a = b && leadsList p s

/-- Whether `p` occurs as a contiguous substring of `s` (character lists). -/
def hasSubList (p : List Char) : List Char → Bool
  | [] => p.isEmpty
  | c :: t => leadsList p (c :: t) || hasSubList p t

/-- `p` occurs as a contiguous substring of `s`. -/
def strHasSub (p s : String) : Bool :=
  hasSubList p.data s.data

/-- `p` is an initial segment of `s` (key `s` lies under namespace `p`). -/
def strLeads (p s : String) : Bool :=
  leadsList p.data s.data

/-- Mongo `$regex` matching for the pattern family this service constructs
(a literal containing no regex metacharacters followed by `.*`, e.g.
`github:alice:.*` built by `InvalidateGitHubCache`): Mongo regexes are
unanchored and `.*` matches anything, so such a pattern matches a key
exactly when the literal part (the pattern minus its final two characters)
occurs anywhere in the key as a substring. -/
def mongoRegexMatches (pat key : String) : Bool :=
  hasSubList pat.data.dropLast.dropLast key.data

/-- Go `(*CacheService).DeletePattern` (lines 78-82): `DeleteMany` with a
`$regex` filter on `key`. -/
def CacheStore.deletePattern {V : Type} (s : CacheStore V) (pat : String) :
    CacheStore V :=
  fun k => if mongoRegexMatches pat k then none else s k

/-- Go `(*CacheService).InvalidateGitHubCache` (lines 179-182): delete by the
pattern `github:<username>:.*`. -/
def CacheStore.invalidateGitHubCache {V : Type} (s : CacheStore V)
    (username : String) : CacheStore V :=
  s.deletePattern ("github:" ++ username ++ ":.*")

/-! ### C2: first sight of a key -/

/-- C2: for every key with no existing bucket, `allow` creates a bucket with
`tokens = capacity - 1` (the current request consumes one token immediately)
and `lastSeen = now`, and returns `true`. -/
theorem allow_first_sight (rlm : RateLimitManager) (now : Nat) (ip : String)
    (h : rlm.limiters ip = none) :
    (rlm.allow now ip).1 = true ∧
    (rlm.allow now ip).2.limiters ip = some ⟨(rlm.limit : Int) - 1, now⟩ := by
  simp [RateLimitManager.allow, h]

theorem allow_first_sight_witness :
    (mkManager 100 3600).limiters "1.2.3.4" = none ∧
    (((mkManager 100 3600).allow 7 "1.2.3.4").1 = true ∧
      ((mkManager 100 3600).allow 7 "1.2.3.4").2.limiters "1.2.3.4" =
        some ⟨(((mkManager 100 3600).limit : Int)) - 1, 7⟩) :=
  ⟨rfl, allow_first_sight (mkManager 100 3600) 7 "1.2.3.4" rfl⟩

/-! ### C3: full-window reset -/

/-- C3: for every existing bucket, if at least one full window has elapsed
since its last refill, the next `allow` call resets the tokens to
`capacity - 1`, stamps `lastSeen = now`, and returns `true`, regardless of the
token count before the call. -/
theorem allow_full_window_reset (rlm : RateLimitManager) (now : Nat)
    (ip : String) (l : RateLimiter) (h : rlm.limiters ip = some l)
    (hmono : l.lastSeen ≤ now) (helap : rlm.window ≤ now - l.lastSeen) :
    (rlm.allow now ip).1 = true ∧
    (rlm.allow now ip).2.limiters ip = some ⟨(rlm.limit : Int) - 1, now⟩ := by
  simp [RateLimitManager.allow, h, helap]

theorem allow_full_window_reset_witness :
    ((mkManager 100 3600).setLimiter "1.2.3.4" ⟨0, 5⟩).limiters "1.2.3.4" =
        some ⟨0, 5⟩ ∧
    (5 : Nat) ≤ 3700 ∧
    ((mkManager 100 3600).setLimiter "1.2.3.4" ⟨0, 5⟩).window ≤ 3700 - 5 ∧
    ((((mkManager 100 3600).setLimiter "1.2.3.4" ⟨0, 5⟩).allow
        3700 "1.2.3.4").1 = true ∧
      (((mkManager 100 3600).setLimiter "1.2.3.4" ⟨0, 5⟩).allow
          3700 "1.2.3.4").2.limiters "1.2.3.4" =
        some ⟨((((mkManager 100 3600).setLimiter "1.2.3.4" ⟨0, 5⟩).limit :
            Int)) - 1, 3700⟩) :=
  ⟨by decide, by decide, by decide,
    allow_full_window_reset _ 3700 "1.2.3.4" ⟨0, 5⟩ (by decide) (by decide)
      (by decide)⟩

/-! ### C7: set-then-get before expiry -/

/-- C7: for every key, value and `ttl > 0`, a `Set` immediately followed by a
`Get` before the ttl has elapsed (the read instant is at least the write
instant and strictly before `now + ttl`) hits and returns exactly the stored
value. -/
theorem cache_set_then_get (V : Type) (s : CacheStore V) (key : String)
    (v : V) (ttl now now' : Nat) (httl : 0 < ttl) (hmono : now ≤ now')
    (hbefore : now' < now + ttl) :
    (s.set key v ttl now).get key now' = some v := by
  simp [CacheStore.get, CacheStore.set, hbefore]

theorem cache_set_then_get_witness :
    (0 : Nat) < 5 ∧ (10 : Nat) ≤ 12 ∧ (12 : Nat) < 10 + 5 ∧
    CacheStore.get
      (CacheStore.set ((fun _ => none) : CacheStore Nat) "content:meta" 42 5 10)
      "content:meta" 12 = some 42 :=
  ⟨by decide, by decide, by decide,
    cache_set_then_get Nat (fun _ => none) "content:meta" 42 5 10 12
      (by decide) (by decide) (by decide)⟩

/-! ### C8: expired-but-unswept entries are misses -/

/-- C8: for every key whose stored entry has expired (`expiresAt ≤ now`),
`Get` returns a miss even though the sweep has not removed the document: the
lookup filter itself requires `expires_at > now`. -/
theorem cache_expired_is_miss (V : Type) (s : CacheStore V) (key : String)
    (now : Nat) (e : CacheEntry V) (he : s key = some e)
    (hexp : e.expiresAt ≤ now) :
    s.get key now = none := by
  simp [CacheStore.get, he, Nat.not_lt.mpr hexp]

theorem cache_expired_is_miss_witness :
    ((fun k => if k = "github:alice:profile" then
        some (⟨42, 5, 0⟩ : CacheEntry Nat) else none) :
      CacheStore Nat) "github:alice:profile" = some ⟨42, 5, 0⟩ ∧
    (⟨42, 5, 0⟩ : CacheEntry Nat).expiresAt ≤ 5 ∧
    CacheStore.get (fun k => if k = "github:alice:profile" then
        some (⟨42, 5, 0⟩ : CacheEntry Nat) else none)
      "github:alice:profile" 5 = none :=
  ⟨by decide, by decide,
    cache_expired_is_miss Nat
      (fun k => if k = "github:alice:profile" then
        some (⟨42, 5, 0⟩ : CacheEntry Nat) else none)
      "github:alice:profile" 5 ⟨42, 5, 0⟩ (by decide) (by decide)⟩

/-! ### C4: sub-window partial refill -/

/-- C4: for an existing bucket with elapsed time strictly inside the window,
`allow` refills by exactly the floor of the exact real quotient
`elapsed * capacity / window` (never rounding up), clamps the result to
`capacity`, stamps `lastSeen = now`, and admits (decrementing by one) exactly
when the clamped count is positive. -/
theorem allow_partial_refill (rlm : RateLimitManager) (now : Nat) (ip : String)
    (l : RateLimiter) (h : rlm.limiters ip = some l) (hmono : l.lastSeen ≤ now)
    (hw : 0 < rlm.window) (helap : now - l.lastSeen < rlm.window) :
    ((now - l.lastSeen) * rlm.limit / rlm.window : Nat) =
      Nat.floor ((((now - l.lastSeen) * rlm.limit : Nat) : ℚ) / (rlm.window : ℚ)) ∧
    (rlm.allow now ip).2.limiters ip = some
      ⟨(if 0 < min (l.tokens + (((now - l.lastSeen) * rlm.limit / rlm.window : Nat) : Int))
              (rlm.limit : Int)
        then min (l.tokens + (((now - l.lastSeen) * rlm.limit / rlm.window : Nat) : Int))
              (rlm.limit : Int) - 1
        else min (l.tokens + (((now - l.lastSeen) * rlm.limit / rlm.window : Nat) : Int))
              (rlm.limit : Int)), now⟩ ∧
    ((rlm.allow now ip).1 = true ↔
      0 < min (l.tokens + (((now - l.lastSeen) * rlm.limit / rlm.window : Nat) : Int))
            (rlm.limit : Int)) := by
  have hne : ¬ (now - l.lastSeen ≥ rlm.window) := not_le.mpr helap
  refine ⟨(Nat.floor_div_eq_div _ _).symm, ?_, ?_⟩ <;>
    simp only [RateLimitManager.allow, h, hne, if_false, min_def] <;>
    split_ifs <;>
    simp_all [RateLimitManager.setLimiter] <;>
    omega

theorem allow_partial_refill_witness :
    ((mkManager 100 3600).setLimiter "1.2.3.4" ⟨5, 0⟩).limiters "1.2.3.4" =
        some ⟨5, 0⟩ ∧
    (0 : Nat) ≤ 2160 ∧
    0 < ((mkManager 100 3600).setLimiter "1.2.3.4" ⟨5, 0⟩).window ∧
    2160 - (0 : Nat) < ((mkManager 100 3600).setLimiter "1.2.3.4" ⟨5, 0⟩).window ∧
    (((2160 - (0 : Nat)) *
          ((mkManager 100 3600).setLimiter "1.2.3.4" ⟨5, 0⟩).limit /
          ((mkManager 100 3600).setLimiter "1.2.3.4" ⟨5, 0⟩).window : Nat) =
        Nat.floor ((((2160 - (0 : Nat)) *
            ((mkManager 100 3600).setLimiter "1.2.3.4" ⟨5, 0⟩).limit : Nat) : ℚ) /
          (((mkManager 100 3600).setLimiter "1.2.3.4" ⟨5, 0⟩).window : ℚ)) ∧
      (((mkManager 100 3600).setLimiter "1.2.3.4" ⟨5, 0⟩).allow
          2160 "1.2.3.4").2.limiters "1.2.3.4" = some
        ⟨(if 0 < min ((5 : Int) + (((2160 - (0 : Nat)) *
                ((mkManager 100 3600).setLimiter "1.2.3.4" ⟨5, 0⟩).limit /
                ((mkManager 100 3600).setLimiter "1.2.3.4" ⟨5, 0⟩).window : Nat) : Int))
              (((mkManager 100 3600).setLimiter "1.2.3.4" ⟨5, 0⟩).limit : Int)
          then min ((5 : Int) + (((2160 - (0 : Nat)) *
                ((mkManager 100 3600).setLimiter "1.2.3.4" ⟨5, 0⟩).limit /
                ((mkManager 100 3600).setLimiter "1.2.3.4" ⟨5, 0⟩).window : Nat) : Int))
              (((mkManager 100 3600).setLimiter "1.2.3.4" ⟨5, 0⟩).limit : Int) - 1
          else min ((5 : Int) + (((2160 - (0 : Nat)) *
                ((mkManager 100 3600).setLimiter "1.2.3.4" ⟨5, 0⟩).limit /
                ((mkManager 100 3600).setLimiter "1.2.3.4" ⟨5, 0⟩).window : Nat) : Int))
              (((mkManager 100 3600).setLimiter "1.2.3.4" ⟨5, 0⟩).limit : Int)), 2160⟩ ∧
      ((((mkManager 100 3600).setLimiter "1.2.3.4" ⟨5, 0⟩).allow
            2160 "1.2.3.4").1 = true ↔
        0 < min ((5 : Int) + (((2160 - (0 : Nat)) *
              ((mkManager 100 3600).setLimiter "1.2.3.4" ⟨5, 0⟩).limit /
              ((mkManager 100 3600).setLimiter "1.2.3.4" ⟨5, 0⟩).window : Nat) : Int))
            (((mkManager 100 3600).setLimiter "1.2.3.4" ⟨5, 0⟩).limit : Int))) :=
  ⟨by decide, by decide, by decide, by decide,
    allow_partial_refill ((mkManager 100 3600).setLimiter "1.2.3.4" ⟨5, 0⟩)
      2160 "1.2.3.4" ⟨5, 0⟩ (by decide) (by decide) (by decide) (by decide)⟩

/-! ### C6: token-range invariant -/

/-- Every stored bucket holds between `0` and `capacity` tokens. -/
def RateLimitManager.TokensInv (rlm : RateLimitManager) : Prop :=
  ∀ ip l, rlm.limiters ip = some l → 0 ≤ l.tokens ∧ l.tokens ≤ (rlm.limit : Int)

@[simp] theorem setLimiter_limiters (rlm : RateLimitManager) (ip : String)
    (l : RateLimiter) (k : String) :
    (rlm.setLimiter ip l).limiters k =
      if k = ip then some l else rlm.limiters k := rfl

@[simp] theorem allow_snd_limit (rlm : RateLimitManager) (now : Nat)
    (ip : String) : ((rlm.allow now ip).2).limit = rlm.limit := by
  rw [RateLimitManager.allow]
  rcases h : rlm.limiters ip with _ | l <;> simp <;> split_ifs <;> rfl

@[simp] theorem allow_snd_window (rlm : RateLimitManager) (now : Nat)
    (ip : String) : ((rlm.allow now ip).2).window = rlm.window := by
  rw [RateLimitManager.allow]
  rcases h : rlm.limiters ip with _ | l <;> simp <;> split_ifs <;> rfl

/-- C6: with a positive configured capacity, the invariant
`0 ≤ tokens ≤ capacity` is preserved by `allow` and by the `cleanup` sweep,
and under it `getRemaining` always lies in `[0, capacity]`, returning the full
capacity for a key with no bucket. -/
theorem tokens_range_invariant (rlm : RateLimitManager) (hc : 1 ≤ rlm.limit)
    (hInv : rlm.TokensInv) :
    (∀ now ip, ((rlm.allow now ip).2).TokensInv) ∧
    (∀ now, (rlm.cleanup now).TokensInv) ∧
    (∀ ip, 0 ≤ rlm.getRemaining ip ∧ rlm.getRemaining ip ≤ (rlm.limit : Int)) ∧
    (∀ ip, rlm.limiters ip = none → rlm.getRemaining ip = (rlm.limit : Int)) := by
  refine ⟨?_, ?_, ?_, ?_⟩
  · intro now ip k lk hk
    rw [show ((rlm.allow now ip).2).limit = rlm.limit from allow_snd_limit ..]
    rw [RateLimitManager.allow] at hk
    rcases hip : rlm.limiters ip with _ | l
    · simp only [hip, setLimiter_limiters] at hk
      split at hk
      · injection hk with hk
        subst hk
        dsimp only
        omega
      · exact hInv k lk hk
    · obtain ⟨h0, h1⟩ := hInv ip l hip
      have hd : (0 : Int) ≤ (((now - l.lastSeen) * rlm.limit / rlm.window : Nat) : Int) :=
        Int.natCast_nonneg _
      simp only [hip] at hk
      split at hk
      · simp only [setLimiter_limiters] at hk
        split at hk
        · injection hk with hk
          subst hk
          dsimp only
          omega
        · exact hInv k lk hk
      · split at hk <;> rename_i hcl <;>
          split at hk <;> rename_i hpos <;>
          dsimp only at hk <;>
          simp only [setLimiter_limiters] at hk <;>
          split at hk <;>
          first
            | exact hInv k lk hk
            | (injection hk with hk; subst hk; dsimp only; omega)
  · intro now k lk hk
    simp only [RateLimitManager.cleanup] at hk ⊢
    rcases hkk : rlm.limiters k with _ | l <;> simp only [hkk] at hk
    · exact Option.noConfusion hk
    · split at hk
      · exact Option.noConfusion hk
      · cases hk
        exact hInv k lk hkk
  · intro ip
    rcases hip : rlm.limiters ip with _ | l
    · simp only [RateLimitManager.getRemaining, hip]
      omega
    · simp only [RateLimitManager.getRemaining, hip]
      exact hInv ip l hip
  · intro ip hip
    simp only [RateLimitManager.getRemaining, hip]

theorem tokens_range_invariant_witness :
    1 ≤ (mkManager 5 10).limit ∧ (mkManager 5 10).TokensInv ∧
    ((∀ now ip, (((mkManager 5 10).allow now ip).2).TokensInv) ∧
      (∀ now, ((mkManager 5 10).cleanup now).TokensInv) ∧
      (∀ ip, 0 ≤ (mkManager 5 10).getRemaining ip ∧
        (mkManager 5 10).getRemaining ip ≤ ((mkManager 5 10).limit : Int)) ∧
      (∀ ip, (mkManager 5 10).limiters ip = none →
        (mkManager 5 10).getRemaining ip = ((mkManager 5 10).limit : Int))) :=
  ⟨by decide, fun ip l h => Option.noConfusion h,
    tokens_range_invariant (mkManager 5 10) (by decide)
      (fun ip l h => Option.noConfusion h)⟩

/-! ### Shape of `allow` on the sub-window branch -/

theorem allow_some_subwindow (rlm : RateLimitManager) (now : Nat) (ip : String)
    (tok : Int) (tp : Nat) (hb : rlm.limiters ip = some ⟨tok, tp⟩)
    (hlt : now - tp < rlm.window) :
    rlm.allow now ip =
      (if (if tok + (((now - tp) * rlm.limit / rlm.window : Nat) : Int) > (rlm.limit : Int)
           then (rlm.limit : Int)
           else tok + (((now - tp) * rlm.limit / rlm.window : Nat) : Int)) > 0
       then (true, rlm.setLimiter ip
              ⟨(if tok + (((now - tp) * rlm.limit / rlm.window : Nat) : Int) > (rlm.limit : Int)
                then (rlm.limit : Int)
                else tok + (((now - tp) * rlm.limit / rlm.window : Nat) : Int)) - 1, now⟩)
       else (false, rlm.setLimiter ip
              ⟨(if tok + (((now - tp) * rlm.limit / rlm.window : Nat) : Int) > (rlm.limit : Int)
                then (rlm.limit : Int)
                else tok + (((now - tp) * rlm.limit / rlm.window : Nat) : Int)), now⟩)) := by
  simp only [RateLimitManager.allow, hb]
  rw [if_neg (show ¬ (now - (⟨tok, tp⟩ : RateLimiter).lastSeen ≥ rlm.window) from by
    dsimp only
    omega)]

/-- Natural division is superadditive over a sum of numerators. -/
theorem div_add_div_le_div (a b n : Nat) : a / n + b / n ≤ (a + b) / n :=
  Nat.add_div_le_add_div a b n

/-- Counting bound for a run of sub-window `allow` calls on an existing
bucket: the grants are covered by the stored tokens plus the truncated refill
earned over the whole span up to the deadline `B`. -/
theorem runAllow_count_true_le (ip : String) (B : Nat) (ts : List Nat) :
    ∀ (rlm : RateLimitManager) (tok : Int) (tp : Nat),
      1 ≤ rlm.limit → 0 < rlm.window →
      rlm.limiters ip = some ⟨tok, tp⟩ → 0 ≤ tok →
      List.Chain (fun a b => a ≤ b) tp ts → (∀ t ∈ ts, t ≤ B) →
      tp ≤ B → B < tp + rlm.window →
      countTrue (runAllow rlm ip ts).1 ≤
        tok.toNat + (B - tp) * rlm.limit / rlm.window := by
  induction ts with
  | nil =>
    intro rlm tok tp _ _ _ _ _ _ _ _
    simp [runAllow, countTrue]
  | cons t ts ih =>
    intro rlm tok tp hc hw hb htok hchain hin htpB hBw
    obtain ⟨htpt, hchain'⟩ := List.chain_cons.mp hchain
    have htB : t ≤ B := hin t (List.mem_cons_self t ts)
    have hA : (t - tp) * rlm.limit / rlm.window +
        (B - t) * rlm.limit / rlm.window ≤
        (B - tp) * rlm.limit / rlm.window := by
      have h1 := div_add_div_le_div ((t - tp) * rlm.limit)
        ((B - t) * rlm.limit) rlm.window
      have h2 : (t - tp) * rlm.limit + (B - t) * rlm.limit =
          (B - tp) * rlm.limit := by
        rw [← Nat.add_mul]
        congr 1
        omega
      rw [h2] at h1
      exact h1
    simp only [runAllow]
    rw [allow_some_subwindow rlm t ip tok tp hb (by omega)]
    have hd0 : (0 : Int) ≤ (((t - tp) * rlm.limit / rlm.window : Nat) : Int) :=
      Int.natCast_nonneg _
    split_ifs with hcl hp1 hp2
    · -- clamped to the limit, request admitted
      have htail := ih (rlm.setLimiter ip ⟨(rlm.limit : Int) - 1, t⟩)
        ((rlm.limit : Int) - 1) t (by simpa using hc) (by simpa using hw)
        (setLimiter_limiters_same ..) (by omega) hchain'
        (fun x hx => hin x (List.mem_cons_of_mem _ hx)) htB
        (by simpa using show B < t + rlm.window by omega)
      simp only [setLimiter_limit, setLimiter_window] at htail
      dsimp only
      simp only [countTrue]
      omega
    · -- clamped to the limit, request denied (only with a non-positive limit)
      have htail := ih (rlm.setLimiter ip ⟨(rlm.limit : Int), t⟩)
        ((rlm.limit : Int)) t (by simpa using hc) (by simpa using hw)
        (setLimiter_limiters_same ..) (by omega) hchain'
        (fun x hx => hin x (List.mem_cons_of_mem _ hx)) htB
        (by simpa using show B < t + rlm.window by omega)
      simp only [setLimiter_limit, setLimiter_window] at htail
      dsimp only
      simp only [countTrue]
      omega
    · -- refill below the limit, request admitted
      have htail := ih (rlm.setLimiter ip
          ⟨tok + (((t - tp) * rlm.limit / rlm.window : Nat) : Int) - 1, t⟩)
        (tok + (((t - tp) * rlm.limit / rlm.window : Nat) : Int) - 1) t
        (by simpa using hc) (by simpa using hw)
        (setLimiter_limiters_same ..) (by omega) hchain'
        (fun x hx => hin x (List.mem_cons_of_mem _ hx)) htB
        (by simpa using show B < t + rlm.window by omega)
      simp only [setLimiter_limit, setLimiter_window] at htail
      dsimp only
      simp only [countTrue]
      omega
    · -- refill below the limit, request denied
      have htail := ih (rlm.setLimiter ip
          ⟨tok + (((t - tp) * rlm.limit / rlm.window : Nat) : Int), t⟩)
        (tok + (((t - tp) * rlm.limit / rlm.window : Nat) : Int)) t
        (by simpa using hc) (by simpa using hw)
        (setLimiter_limiters_same ..) (by omega) hchain'
        (fun x hx => hin x (List.mem_cons_of_mem _ hx)) htB
        (by simpa using show B < t + rlm.window by omega)
      simp only [setLimiter_limit, setLimiter_window] at htail
      dsimp only
      simp only [countTrue]
      omega

/-! ### C1: grants within one window -/

/-- C1 counterexample: with capacity 3 and window 10, the six calls at
instants `0, 0, 0, 9, 9, 9` on a fresh key all fall within one window
(`9 - 0 < 10`, monotone), yet 5 of them are granted, exceeding the capacity 3:
three grants drain the fresh bucket, and the sub-window refill at instant 9
adds `floor(9*3/10) = 2` fresh grants. -/
theorem allow_window_capacity_cex :
    countTrue (runAllow (mkManager 3 10) "k" [0, 0, 0, 9, 9, 9]).1 = 5 ∧
    List.Chain (fun a b => a ≤ b) 0 [0, 0, 9, 9, 9] ∧
    (∀ t ∈ [0, 0, 0, 9, 9, 9], t < 0 + 10) ∧
    1 ≤ (mkManager 3 10).limit ∧ ¬ (5 ≤ (mkManager 3 10).limit) := by
  refine ⟨by decide, ?_, by decide, by decide, by decide⟩
  exact .cons (by decide) (.cons (by decide) (.cons (by decide)
    (.cons (by decide) (.cons (by decide) .nil))))

/-- C1 amended: for capacity ≥ 1 and window ≥ 1, any monotone sequence of
`allow` calls on a single fresh key whose instants all fall within one window
is granted at most `2*capacity - 1` times (the stated bound `capacity` is
exceeded, as the counterexample shows; `2*capacity - 1` is what the lazy
truncated refill actually guarantees). -/
theorem allow_window_grant_bound (rlm : RateLimitManager) (ip : String)
    (hc : 1 ≤ rlm.limit) (hw : 0 < rlm.window)
    (hfresh : rlm.limiters ip = none) (t0 : Nat) (ts : List Nat)
    (hchain : List.Chain (fun a b => a ≤ b) t0 ts)
    (hin : ∀ t ∈ ts, t < t0 + rlm.window) :
    countTrue (runAllow rlm ip (t0 :: ts)).1 ≤ 2 * rlm.limit - 1 := by
  simp only [runAllow]
  have h1 : rlm.allow t0 ip =
      (true, rlm.setLimiter ip ⟨(rlm.limit : Int) - 1, t0⟩) := by
    simp [RateLimitManager.allow, hfresh]
  rw [h1]
  have haux := runAllow_count_true_le ip (t0 + rlm.window - 1) ts
    (rlm.setLimiter ip ⟨(rlm.limit : Int) - 1, t0⟩) ((rlm.limit : Int) - 1) t0
    (by simpa using hc) (by simpa using hw) (setLimiter_limiters_same ..)
    (by omega) hchain (fun x hx => by have := hin x hx; omega)
    (by omega) (by simp only [setLimiter_window]; omega)
  simp only [setLimiter_limit, setLimiter_window] at haux
  have he : t0 + rlm.window - 1 - t0 = rlm.window - 1 := by omega
  rw [he] at haux
  have h5 : (rlm.window - 1) * rlm.limit + rlm.limit = rlm.window * rlm.limit := by
    calc (rlm.window - 1) * rlm.limit + rlm.limit
        = (rlm.window - 1) * rlm.limit + 1 * rlm.limit := by rw [one_mul]
      _ = (rlm.window - 1 + 1) * rlm.limit := (Nat.add_mul _ _ _).symm
      _ = rlm.window * rlm.limit := by congr 1; omega
  have h4 : (rlm.window - 1) * rlm.limit < rlm.window * rlm.limit := by omega
  have hdb : (rlm.window - 1) * rlm.limit / rlm.window < rlm.limit :=
    (Nat.div_lt_iff_lt_mul hw).mpr
      (by rw [Nat.mul_comm rlm.limit rlm.window]; exact h4)
  dsimp only
  simp only [countTrue]
  omega

theorem allow_window_grant_bound_witness :
    1 ≤ (mkManager 3 10).limit ∧ 0 < (mkManager 3 10).window ∧
    (mkManager 3 10).limiters "k" = none ∧
    List.Chain (fun a b => a ≤ b) 0 [0, 9] ∧
    (∀ t ∈ [0, 9], t < 0 + (mkManager 3 10).window) ∧
    countTrue (runAllow (mkManager 3 10) "k" (0 :: [0, 9])).1 ≤
      2 * (mkManager 3 10).limit - 1 :=
  ⟨by decide, by decide, rfl,
    .cons (by decide) (.cons (by decide) .nil), by decide,
    allow_window_grant_bound (mkManager 3 10) "k" (by decide) (by decide) rfl
      0 [0, 9] (.cons (by decide) (.cons (by decide) .nil)) (by decide)⟩

/-! ### C10: starvation under closely spaced calls -/

/-- The instant of the last call in the list, or `d` if there is none. -/
def lastCallD (d : Nat) : List Nat → Nat
  | [] => d
  | t :: ts => lastCallD t ts

/-- C10: once a bucket's token count has reached `0`, every subsequent
`allow` call arriving strictly less than `window/capacity` after the previous
call (`gap * capacity < window`, i.e. `gap < window.seconds/capacity` seconds)
is denied: the truncated refill adds zero tokens while `lastSeen` is still
advanced to the call instant, so the partial elapsed time is discarded at
every call and an arbitrarily long such sequence — of any total duration,
including beyond a full window — is denied throughout, the token count
remaining `0`. -/
theorem zero_tokens_starvation (ip : String) (ts : List Nat) :
    ∀ (rlm : RateLimitManager) (tp : Nat),
      1 ≤ rlm.limit →
      rlm.limiters ip = some ⟨0, tp⟩ →
      List.Chain (fun a b => a ≤ b ∧ (b - a) * rlm.limit < rlm.window) tp ts →
      (runAllow rlm ip ts).1 = List.replicate ts.length false ∧
      (runAllow rlm ip ts).2.limiters ip = some ⟨0, lastCallD tp ts⟩ := by
  induction ts with
  | nil =>
    intro rlm tp _ hb _
    simpa [runAllow, lastCallD] using hb
  | cons t ts ih =>
    intro rlm tp hc hb hchain
    obtain ⟨⟨htpt, hgap⟩, hchain'⟩ := List.chain_cons.mp hchain
    have hlt : t - tp < rlm.window := by
      have h5 : (t - tp) * 1 ≤ (t - tp) * rlm.limit :=
        Nat.mul_le_mul (Nat.le_refl _) hc
      omega
    have hadd : ((t - tp) * rlm.limit / rlm.window : Nat) = 0 :=
      Nat.div_eq_of_lt hgap
    have hallow : rlm.allow t ip = (false, rlm.setLimiter ip ⟨0, t⟩) := by
      rw [allow_some_subwindow rlm t ip 0 tp hb hlt, hadd]
      norm_num
      rw [if_neg (show ¬ ((rlm.limit : Int) < 0) by omega)]
      norm_num
    have hrec := ih (rlm.setLimiter ip ⟨0, t⟩) t (by simpa using hc)
      (setLimiter_limiters_same ..) (by simpa using hchain')
    refine ⟨?_, ?_⟩
    · simp only [runAllow, hallow]
      rw [List.length_cons, List.replicate_succ]
      exact congrArg (List.cons false) hrec.1
    · simp only [runAllow, hallow]
      rw [show lastCallD tp (t :: ts) = lastCallD t ts from rfl]
      exact hrec.2

theorem zero_tokens_starvation_witness :
    1 ≤ ((mkManager 2 10).setLimiter "k" ⟨0, 0⟩).limit ∧
    ((mkManager 2 10).setLimiter "k" ⟨0, 0⟩).limiters "k" = some ⟨0, 0⟩ ∧
    ((runAllow ((mkManager 2 10).setLimiter "k" ⟨0, 0⟩) "k"
        [4, 8, 12, 16, 20]).1 = List.replicate 5 false ∧
      (runAllow ((mkManager 2 10).setLimiter "k" ⟨0, 0⟩) "k"
        [4, 8, 12, 16, 20]).2.limiters "k" =
          some ⟨0, lastCallD 0 [4, 8, 12, 16, 20]⟩) :=
  ⟨by decide, by decide,
    zero_tokens_starvation "k" [4, 8, 12, 16, 20]
      ((mkManager 2 10).setLimiter "k" ⟨0, 0⟩) 0 (by decide) (by decide)
      (.cons (by decide) (.cons (by decide) (.cons (by decide)
        (.cons (by decide) (.cons (by decide) .nil)))))⟩

/-! ### C5: the 100-requests-per-hour scenario -/

/-- C5 counterexample: capacity 100, window 1h (3600 s).  101 back-to-back
calls on the fresh key `1.2.3.4`: 100 are granted, the 101st is denied — that
part of the claim holds.  But `getRemaining` reads the stored token count
without refilling, and waiting performs no state change, so 36 minutes later
it still returns `0`, not the claimed `60`. -/
theorem remaining_after_wait_cex :
    countTrue (runAllow (mkManager 100 3600) "1.2.3.4"
      (List.replicate 101 0)).1 = 100 ∧
    ((runAllow (mkManager 100 3600) "1.2.3.4"
      (List.replicate 101 0)).1.getLast? = some false) ∧
    (runAllow (mkManager 100 3600) "1.2.3.4"
      (List.replicate 101 0)).2.getRemaining "1.2.3.4" = 0 ∧
    ¬ ((runAllow (mkManager 100 3600) "1.2.3.4"
      (List.replicate 101 0)).2.getRemaining "1.2.3.4" = 60) := by
  decide

/-- C5 amended: capacity 100, window 1h (3600 s), fresh key `1.2.3.4`:
100 back-to-back calls are all granted and the 101st is denied; after a
36-minute wait with no intervening calls `getRemaining` still returns `0`
(it reads the stored count without refilling), while the 102nd call at
36 minutes refills `floor(0.6*100) = 60` tokens during its own admission
check and is granted, leaving 59 tokens, which `getRemaining` reports from
then on. -/
theorem remaining_after_wait_amended :
    countTrue (runAllow (mkManager 100 3600) "1.2.3.4"
      (List.replicate 101 0)).1 = 100 ∧
    ((runAllow (mkManager 100 3600) "1.2.3.4"
      (List.replicate 101 0)).1.getLast? = some false) ∧
    (runAllow (mkManager 100 3600) "1.2.3.4"
      (List.replicate 101 0)).2.getRemaining "1.2.3.4" = 0 ∧
    ((runAllow (mkManager 100 3600) "1.2.3.4"
      (List.replicate 101 0)).2.allow 2160 "1.2.3.4").1 = true ∧
    ((runAllow (mkManager 100 3600) "1.2.3.4"
      (List.replicate 101 0)).2.allow 2160 "1.2.3.4").2.getRemaining "1.2.3.4"
      = 59 := by
  decide

/-! ### C9: namespace invalidation by pattern -/

theorem dropLast_dropLast_append3 (ys : List Char) (a b c : Char) :
    (ys ++ [a, b, c]).dropLast.dropLast = ys ++ [a] := by
  have h1 : ys ++ [a, b, c] = ((ys ++ [a]) ++ [b]) ++ [c] := by simp
  rw [h1, List.dropLast_concat, List.dropLast_concat]

/-- The literal part of the pattern `github:<u>:.*` is `github:<u>:`. -/
theorem invalidate_pattern_literal (u : String) :
    ("github:" ++ u ++ ":.*").data.dropLast.dropLast =
      ("github:" ++ u ++ ":").data := by
  have h1 : ("github:" ++ u ++ ":.*").data =
      ("github:" ++ u).data ++ [':', '.', '*'] := by
    rw [String.data_append]
  have h2 : ("github:" ++ u ++ ":").data =
      ("github:" ++ u).data ++ [':'] := by
    rw [String.data_append]
  rw [h1, h2, dropLast_dropLast_append3]

theorem hasSubList_of_leadsList (p s : List Char)
    (h : leadsList p s = true) : hasSubList p s = true := by
  cases s with
  | nil =>
    cases p with
    | nil => rfl
    | cons a q => simp [leadsList] at h
  | cons c t => simp [hasSubList, h]

/-- A store with one entry under `github:alice:*` and one under `content:*`
whose key happens to contain `github:alice:` as an inner substring. -/
def cexStore : CacheStore Nat := fun k =>
  if k = "content:github:alice:profile" then some ⟨1, 100, 0⟩
  else if k = "github:alice:profile" then some ⟨2, 100, 0⟩
  else none

/-- C9 counterexample: the Mongo regex `github:alice:.*` built by
`InvalidateGitHubCache` is unanchored, so it matches any key containing
`github:alice:` as a substring.  On `cexStore` it therefore also deletes the
entry stored under `content:github:alice:profile` — a key under the
`content:*` namespace, which the claim says is left unchanged. -/
theorem deletePattern_github_cex :
    strLeads "content:" "content:github:alice:profile" = true ∧
    cexStore "content:github:alice:profile" = some ⟨1, 100, 0⟩ ∧
    (cexStore.invalidateGitHubCache "alice") "content:github:alice:profile"
      = none := by
  decide

/-- C9 amended: `InvalidateGitHubCache u` (DeletePattern with the regex
`github:<u>:.*`) removes exactly the entries whose key contains `github:<u>:`
as a substring.  In particular every key under the `github:<u>:*` namespace
is removed, and entries under `github:bob:*` or `content:*` are unchanged
exactly when their key does not contain `github:<u>:` as an inner
substring. -/
theorem deletePattern_github_amended (V : Type) (s : CacheStore V)
    (u k : String) :
    ((s.invalidateGitHubCache u) k =
      if strHasSub ("github:" ++ u ++ ":") k then none else s k) ∧
    (strLeads ("github:" ++ u ++ ":") k = true →
      (s.invalidateGitHubCache u) k = none) := by
  have hm : mongoRegexMatches ("github:" ++ u ++ ":.*") k =
      strHasSub ("github:" ++ u ++ ":") k := by
    unfold mongoRegexMatches strHasSub
    rw [invalidate_pattern_literal]
  constructor
  · show (if mongoRegexMatches ("github:" ++ u ++ ":.*") k then none else s k)
      = _
    rw [hm]
  · intro hl
    have hsub : strHasSub ("github:" ++ u ++ ":") k = true :=
      hasSubList_of_leadsList _ _ hl
    show (if mongoRegexMatches ("github:" ++ u ++ ":.*") k then none else s k)
      = none
    rw [hm, if_pos hsub]

theorem deletePattern_github_amended_witness :
    ((cexStore.invalidateGitHubCache "alice") "github:alice:profile" =
      if strHasSub ("github:" ++ "alice" ++ ":") "github:alice:profile"
      then none else cexStore "github:alice:profile") ∧
    (strLeads ("github:" ++ "alice" ++ ":") "github:alice:profile" = true →
      (cexStore.invalidateGitHubCache "alice") "github:alice:profile" = none) :=
  deletePattern_github_amended Nat cexStore "alice" "github:alice:profile"

end Portfolio
